import Mathlib

/-!
Verification development for the `bankdeposit_FRA` scripts: a shallow
embedding, in Lean 4, of the INPI/Qard document-downloading scripts
(`main_pdf.py`, `main_pdf_2.py`, `main_pdf_json.py`, `pre-ocr_filter.py`,
`qard_bulk_download.py`), together with theorems settling the specified
behavioural claims.

Modelling conventions:
- Python strings are `String`/`List Char`; machine text transformations
  (`unicodedata.normalize('NFKD', ·)`, `str.lower`, `str.upper`,
  `unicodedata.combining`) are modelled by explicit finite character
  tables that are faithful on the repository's character domain
  (ASCII plus the accented French letters occurring in the scripts'
  keyword lists and data), with identity as the default elsewhere.
- Network I/O is modelled by oracles: a function from the index of the
  network call to its response, and a function from the index of the
  login attempt to its result.  Sleeps (backoff waits) and file saves are
  recorded in an explicit trace.  Random jitter added to a backoff sleep
  changes only the sleep duration, never the control flow, so traces
  record the base backoff seconds.
-/

/-! ## Generic string helpers (Python `in` on strings is substring test) -/

/-- Does `p` occur at the start of `l`?  (helper for substring test). -/
def startsWithL : List Char → List Char → Bool
  | [], _ => true
  | _ :: _, [] => false
  | a :: as, b :: bs => a == b && startsWithL as bs

/-- Python `needle in hay` on strings: substring containment. -/
def substrOf (needle : List Char) : List Char → Bool
  | [] => needle.isEmpty
  | c :: rest => startsWithL needle (c :: rest) || substrOf needle rest

/-- String-level wrapper for Python `needle in hay`. -/
def strContains (hay needle : String) : Bool :=
  substrOf needle.data hay.data

/-! ## Character-level model of the Python text primitives

`unicodedata.normalize('NFKD', s)` decomposes precomposed characters into a
base character followed by combining marks.  `nfkdTable` records that
decomposition for the accented Latin letters relevant to the repository
(the French keyword lists and labels); every other character — in
particular every ASCII character, which NFKD leaves unchanged — is a fixed
point of the modelled decomposition. -/

/-- Combining acute accent U+0301. -/
def cAcute : Char := Char.ofNat 0x301
/-- Combining grave accent U+0300. -/
def cGrave : Char := Char.ofNat 0x300
/-- Combining circumflex U+0302. -/
def cCirc : Char := Char.ofNat 0x302
/-- Combining diaeresis U+0308. -/
def cDiaer : Char := Char.ofNat 0x308
/-- Combining cedilla U+0327. -/
def cCedil : Char := Char.ofNat 0x327

/-- Model of `unicodedata.combining(c) != 0`, restricted to the Combining
Diacritical Marks block that the modelled decompositions emit. -/
def isCombiningMark (c : Char) : Bool :=
  0x300 ≤ c.toNat && c.toNat ≤ 0x36F

/-- NFKD decompositions of the accented Latin letters in the modelled
character domain. -/
def nfkdTable : List (Char × List Char) :=
  [ ('é', ['e', cAcute]), ('è', ['e', cGrave]), ('ê', ['e', cCirc]), ('ë', ['e', cDiaer]),
    ('à', ['a', cGrave]), ('â', ['a', cCirc]), ('ä', ['a', cDiaer]),
    ('î', ['i', cCirc]), ('ï', ['i', cDiaer]),
    ('ô', ['o', cCirc]), ('ö', ['o', cDiaer]),
    ('ù', ['u', cGrave]), ('û', ['u', cCirc]), ('ü', ['u', cDiaer]),
    ('ç', ['c', cCedil]),
    ('É', ['E', cAcute]), ('È', ['E', cGrave]), ('Ê', ['E', cCirc]), ('Ë', ['E', cDiaer]),
    ('À', ['A', cGrave]), ('Â', ['A', cCirc]), ('Ä', ['A', cDiaer]),
    ('Î', ['I', cCirc]), ('Ï', ['I', cDiaer]),
    ('Ô', ['O', cCirc]), ('Ö', ['O', cDiaer]),
    ('Ù', ['U', cGrave]), ('Û', ['U', cCirc]), ('Ü', ['U', cDiaer]),
    ('Ç', ['C', cCedil]) ]

/-- Model of NFKD decomposition of a single character. -/
def nfkdChar (c : Char) : List Char :=
  ((nfkdTable.lookup c).getD [c])

/-- Model of `unicodedata.normalize('NFKD', s)` on a character list. -/
def nfkdL (l : List Char) : List Char :=
  l.flatMap nfkdChar

/-- Lower-casing table modelling Python `str.lower` on the repository's
character domain: ASCII `A`–`Z`, the accented uppercase Latin letters, and
`Œ`; identity elsewhere. -/
def lowerTable : List (Char × Char) :=
  [ ('A','a'), ('B','b'), ('C','c'), ('D','d'), ('E','e'), ('F','f'), ('G','g'),
    ('H','h'), ('I','i'), ('J','j'), ('K','k'), ('L','l'), ('M','m'), ('N','n'),
    ('O','o'), ('P','p'), ('Q','q'), ('R','r'), ('S','s'), ('T','t'), ('U','u'),
    ('V','v'), ('W','w'), ('X','x'), ('Y','y'), ('Z','z'),
    ('É','é'), ('È','è'), ('Ê','ê'), ('Ë','ë'), ('À','à'), ('Â','â'), ('Ä','ä'),
    ('Î','î'), ('Ï','ï'), ('Ô','ô'), ('Ö','ö'), ('Ù','ù'), ('Û','û'), ('Ü','ü'),
    ('Ç','ç'), ('Œ','œ') ]

/-- Model of Python `str.lower` on one character. -/
def pyLower (c : Char) : Char :=
  (lowerTable.lookup c).getD c

/-- Upper-casing table modelling Python `str.upper` on the repository's
character domain (the Qard datatype labels are ASCII). -/
def upperTable : List (Char × Char) :=
  [ ('a','A'), ('b','B'), ('c','C'), ('d','D'), ('e','E'), ('f','F'), ('g','G'),
    ('h','H'), ('i','I'), ('j','J'), ('k','K'), ('l','L'), ('m','M'), ('n','N'),
    ('o','O'), ('p','P'), ('q','Q'), ('r','R'), ('s','S'), ('t','T'), ('u','U'),
    ('v','V'), ('w','W'), ('x','X'), ('y','Y'), ('z','Z') ]

/-- Model of Python `str.upper` on one character. -/
def pyUpper (c : Char) : Char :=
  (upperTable.lookup c).getD c

/-- Model of Python `str.upper` on a string. -/
def strUpper (s : String) : String :=
  ⟨s.data.map pyUpper⟩

/-- Model of Python `str.lower` on a string. -/
def strLower (s : String) : String :=
  ⟨s.data.map pyLower⟩

/-! ## Whitespace handling used by `pre-ocr_filter.norm` -/

/-- The whitespace characters matched by Python's `\s` on the modelled
(ASCII) domain. -/
def isWs (c : Char) : Bool :=
  c == ' ' || c == '\t' || c == '\n' || c == '\r' || c == '\x0b' || c == '\x0c'

/-- Replace every maximal whitespace run by a single space: the model of
`re.sub(r"\s+", " ", t)`.  The boolean flag records whether the previous
character belonged to a whitespace run. -/
def collapseGo : Bool → List Char → List Char
  | _, [] => []
  | inRun, c :: cs =>
    if isWs c then
      if inRun then collapseGo true cs else ' ' :: collapseGo true cs
    else c :: collapseGo false cs

/-- Model of `re.sub(r"\s+", " ", t)`. -/
def subWs (l : List Char) : List Char :=
  collapseGo false l

/-- Drop trailing whitespace characters. -/
def dropTrailingWs : List Char → List Char
  | [] => []
  | c :: cs =>
    match dropTrailingWs cs with
    | [] => if isWs c then [] else [c]
    | r => c :: r

/-- Model of Python `str.strip()`: drop leading and trailing whitespace. -/
def stripWs (l : List Char) : List Char :=
  dropTrailingWs (l.dropWhile isWs)

/-- The first three stages of `pre-ocr_filter.norm`: NFKD-decompose, drop
combining marks, lower-case. -/
def preClean (l : List Char) : List Char :=
  ((nfkdL l).filter (fun c => !isCombiningMark c)).map pyLower

/-- No two consecutive whitespace characters (proof-internal invariant of
the collapsed form). -/
def noDblWs : List Char → Bool
  | [] => true
  | [_] => true
  | a :: b :: t => !(isWs a && isWs b) && noDblWs (b :: t)

/-- The head, when present, is not whitespace (proof-internal invariant). -/
def headNotWs : List Char → Bool
  | [] => true
  | c :: _ => !isWs c

/-- Characters on which one pass of `normalize` acts as the identity:
NFKD-fixed, ASCII, lower-case-fixed (proof-internal invariant). -/
def asciiFixed (c : Char) : Prop :=
  nfkdChar c = [c] ∧ c.toNat < 128 ∧ pyLower c = c

/-- Characters on which the first three stages of `norm` act as the
identity: NFKD-fixed, not a combining mark, lower-case-fixed
(proof-internal invariant). -/
def cleanFixed (c : Char) : Prop :=
  nfkdChar c = [c] ∧ isCombiningMark c = false ∧ pyLower c = c

namespace MainPdf2

/-! ## `main_pdf_2.py` — helpers, filter -/

/-- `normalize` of `main_pdf_2.py` (identical in `main_pdf.py` and
`main_pdf_json.py`): NFKD-decompose, encode to ASCII dropping everything
non-ASCII (in particular the combining marks), then lower-case.  The
character list form. -/
def normalizeL (l : List Char) : List Char :=
  ((nfkdL l).filter (fun c => c.toNat < 128)).map pyLower

/-- `normalize(text)` on strings (the `text or ""` None-guard is the
caller's `Option.getD ""` where relevant). -/
def normalize (s : String) : String :=
  ⟨normalizeL s.data⟩

/-- Allowed acte types of the INPI scripts (`allowed_types`). -/
def allowed_types : List String :=
  ["statuts constitutifs", "attestation de depot des fonds", "attestation bancaire"]

/-- JSON value restricted to what the confidentiality check inspects:
`isinstance(conf, str)` distinguishes string values from everything else. -/
inductive JVal where
  | jstr (s : String)
  | jother
deriving DecidableEq

/-- Document descriptor ("acte") as consumed by the filters and download
loops.  `deleted` models `acte.get("deleted") is True`; `confidentiality`
is `none` when the key is absent; `typeRdd` collects the
`t.get("typeActe", "")` strings of the `typeRdd` list. -/
structure Acte where
  id : String
  nomDocument : String
  deleted : Bool
  confidentiality : Option JVal
  typeRdd : List String
deriving DecidableEq

/-- Does some normalized type label of the acte contain some allow-list
fragment as a substring?  (the `any(any(allowed in acte_type ...))` test). -/
def acteTypeMatch (acte : Acte) : Bool :=
  (acte.typeRdd.map normalize).any
    (fun acte_type => allowed_types.any (fun allowed => strContains acte_type allowed))

/-- `filter_actes` of `main_pdf_2.py`: skip deleted actes, skip actes whose
confidentiality is a string different from "public" after lower-casing,
keep those with a matching type label. -/
def filter_actes (actes : List Acte) : List Acte :=
  actes.filter fun acte =>
    !acte.deleted &&
    (match acte.confidentiality with
     | some (JVal.jstr conf) => strLower conf == "public"
     | _ => true) &&
    acteTypeMatch acte

/-- The confidentiality guard of `filter_actes` as a proposition: the
acte passes unless its confidentiality field is a string whose
lower-casing differs from "public". -/
def confOk (acte : Acte) : Prop :=
  ∀ s, acte.confidentiality = some (.jstr s) → strLower s = "public"

end MainPdf2

namespace MainPdf

/-- `filter_actes` of `main_pdf.py` (and `main_pdf_json.py`): type-label
matching only, with no deleted/confidentiality exclusions. -/
def filter_actes (actes : List MainPdf2.Acte) : List MainPdf2.Acte :=
  actes.filter MainPdf2.acteTypeMatch

end MainPdf

namespace PreOcr

/-- `norm` of `pre-ocr_filter.py`: NFKD-decompose, drop combining marks,
lower-case, collapse whitespace runs to single spaces, and strip.  The
character list form. -/
def normL (l : List Char) : List Char :=
  if l.isEmpty then []
  else stripWs (subWs (preClean l))

/-- `norm(text)` on strings. -/
def norm (s : String) : String :=
  ⟨normL s.data⟩

end PreOcr

namespace MainPdf2

/-! ## `main_pdf_2.py` — network call loops

The network is an oracle: `Net.resp n` is the response to the `n`-th
network call of the run (both metadata fetches and binary downloads draw
from the same counter), and `Net.login n` is the outcome of the `n`-th
login attempt (`none` models `login()` returning `None`).  A `Trace`
records the observable effects: calls issued, logins performed, backoff
sleeps (base seconds of the schedule; the uniform random jitter added by
the code changes only durations, never control flow), files saved, and
politeness pauses. -/

/-- Bearer token. -/
abbrev Token := String

/-- Outcome of one HTTP request: a status code with a body, a
`requests.ConnectionError`, or another `requests.RequestException`. -/
inductive HResp (α : Type) where
  | http (code : Nat) (body : α)
  | connErr
  | reqErr
deriving DecidableEq

/-- Network/login oracle. -/
structure Net (α : Type) where
  resp : Nat → HResp α
  login : Nat → Option Token

/-- Observable effects of a run. -/
structure Trace where
  calls : Nat
  logins : Nat
  sleeps : List Nat
  saves : List String
  pauses : Nat
deriving DecidableEq

/-- The trace after issuing one more network call. -/
def Trace.call (tr : Trace) : Trace :=
  { tr with calls := tr.calls + 1 }

/-- The trace after one more login attempt. -/
def Trace.auth (tr : Trace) : Trace :=
  { tr with logins := tr.logins + 1 }

/-- The trace after a backoff sleep of `w` base seconds. -/
def Trace.sleep (tr : Trace) (w : Nat) : Trace :=
  { tr with sleeps := tr.sleeps ++ [w] }

/-- The trace after saving file `f`. -/
def Trace.save (tr : Trace) (f : String) : Trace :=
  { tr with saves := tr.saves ++ [f] }

/-- The trace after a fixed politeness pause. -/
def Trace.pause (tr : Trace) : Trace :=
  { tr with pauses := tr.pauses + 1 }

/-- Backoff schedule of `fetch_attachments` (`backoffs = [3, 8, 20]`). -/
def backoffs : List Nat := [3, 8, 20]

/-- Result of `fetch_attachments`: either the propagating
`SystemExit(code)` raised on 429 (it is not an instance of
`requests.RequestException`, so no `except` clause on the way back to
`main` catches it), or the `(json_or_none, token)` return value. -/
inductive FetchRes (α : Type) where
  | halt (exitCode : Nat)
  | done (json : Option α) (token : Option Token)
deriving DecidableEq

/-- The retry loop of `fetch_attachments(token, siren, max_attempts)`.
`attempts` is the remaining portion of `range(1, max_attempts + 1)`, so
`attempt < max_attempts` in the code is `rest ≠ []` here.  Each arm
mirrors one branch of the source: 401 → clear token, login, continue (or
`return None, None` if login fails); 429 → `raise SystemExit(2)`;
403 → `return None, token`; 5xx and any raised `RequestException`
(including `raise_for_status` on remaining 4xx codes) → backoff sleep of
`backoffs[min(attempt-1, len(backoffs)-1)]` and continue, or give up after
the final attempt; 2xx/3xx → `return r.json(), token`. -/
def fetchLoop (net : Net α) : List Nat → Token → Trace → FetchRes α × Trace
  | [], token, tr => (.done none (some token), tr)
  | attempt :: rest, token, tr =>
    let r := net.resp tr.calls
    let tr := tr.call
    match r with
    | .http code body =>
      if code == 401 then
        let res := net.login tr.logins
        let tr := tr.auth
        match res with
        | none => (.done none none, tr)
        | some t => fetchLoop net rest t tr
      else if code == 429 then
        (.halt 2, tr)
      else if code == 403 then
        (.done none (some token), tr)
      else if 500 ≤ code || 400 ≤ code then
        if rest.isEmpty then (.done none (some token), tr)
        else
          let w := backoffs.getD (min (attempt - 1) (backoffs.length - 1)) 0
          fetchLoop net rest token (tr.sleep w)
      else
        (.done (some body) (some token), tr)
    | .connErr =>
      if rest.isEmpty then (.done none (some token), tr)
      else
        let w := backoffs.getD (min (attempt - 1) (backoffs.length - 1)) 0
        fetchLoop net rest token (tr.sleep w)
    | .reqErr =>
      if rest.isEmpty then (.done none (some token), tr)
      else
        let w := backoffs.getD (min (attempt - 1) (backoffs.length - 1)) 0
        fetchLoop net rest token (tr.sleep w)

/-- `fetch_attachments` with its default `max_attempts = 4`. -/
def fetch_attachments (net : Net α) (token : Token) (tr : Trace) :
    FetchRes α × Trace :=
  fetchLoop net (List.range' 1 4) token tr

/-- Backoff schedule of `download_acte` (`base_backoffs = [8, 20, 45]`). -/
def dlBackoffs : List Nat := [8, 20, 45]

/-- Result of `download_acte`: the propagating `SystemExit(code)` on 429,
or the returned token (the function returns a token on every other path;
success is observable as the saved file in the trace). -/
inductive DlRes where
  | halt (exitCode : Nat)
  | done (token : Token)
deriving DecidableEq

/-- The retry loop of `download_acte(token, siren, acte, max_attempts)`.
Mirrors the source: 401 → login and continue, or return the current token
when login fails; 429 → `raise SystemExit(2)` (the `Retry-After` header is
only printed); 403 → return token; 5xx and raised `RequestException`s →
backoff sleep from `base_backoffs` and continue, or give up after the
final attempt; 2xx/3xx → save `f"{siren}_{acte_id}.pdf"`, politeness pause
`time.sleep(1.0)`, return token. -/
def dlLoop (net : Net α) (siren acteId : String) :
    List Nat → Token → Trace → DlRes × Trace
  | [], token, tr => (.done token, tr)
  | attempt :: rest, token, tr =>
    let r := net.resp tr.calls
    let tr := tr.call
    match r with
    | .http code _body =>
      if code == 401 then
        let res := net.login tr.logins
        let tr := tr.auth
        match res with
        | none => (.done token, tr)
        | some t => dlLoop net siren acteId rest t tr
      else if code == 429 then
        (.halt 2, tr)
      else if code == 403 then
        (.done token, tr)
      else if 500 ≤ code || 400 ≤ code then
        if rest.isEmpty then (.done token, tr)
        else
          let w := dlBackoffs.getD (min (attempt - 1) (dlBackoffs.length - 1)) 0
          dlLoop net siren acteId rest token (tr.sleep w)
      else
        let fname := siren ++ "_" ++ acteId ++ ".pdf"
        (.done token, (tr.save fname).pause)
    | .connErr =>
      if rest.isEmpty then (.done token, tr)
      else
        let w := dlBackoffs.getD (min (attempt - 1) (dlBackoffs.length - 1)) 0
        dlLoop net siren acteId rest token (tr.sleep w)
    | .reqErr =>
      if rest.isEmpty then (.done token, tr)
      else
        let w := dlBackoffs.getD (min (attempt - 1) (dlBackoffs.length - 1)) 0
        dlLoop net siren acteId rest token (tr.sleep w)

/-- `download_acte` with its default `max_attempts = 4`. -/
def download_acte (net : Net α) (siren : String) (acte : Acte)
    (token : Token) (tr : Trace) : DlRes × Trace :=
  dlLoop net siren acte.id (List.range' 1 4) token tr

/-- The per-acte download loop of `main` (lines 402–410): for each
filtered acte, `token = download_acte(token, s, acte) or prev_token`.
A `SystemExit` raised inside `download_acte` propagates: nothing in the
loop catches it.  Returns `some exitCode` when halted. -/
def runActes (net : Net α) (siren : String) :
    List Acte → Token → Trace → Option Nat × Token × Trace
  | [], token, tr => (none, token, tr)
  | acte :: rest, token, tr =>
    let prev := token
    match download_acte net siren acte token tr with
    | (.halt c, tr') => (some c, token, tr')
    | (.done t, tr') =>
      let token' := if t = "" then prev else t
      runActes net siren rest token' tr'

/-- The per-SIREN loop of `main` (lines 390–413): fetch attachments
(reassigning the token from the result; a `None` token is interpolated
into the header as the string "None" by the f-string), skip the SIREN when
no JSON came back, otherwise filter and download each retained acte; a
politeness pause separates SIRENs.  A `SystemExit` propagates out of the
loop uncaught.  Returns `some exitCode` when the run was halted. -/
def runSirens (net : Net (List Acte)) :
    List String → Token → Trace → Option Nat × Trace
  | [], _, tr => (none, tr)
  | s :: rest, token, tr =>
    match fetch_attachments net token tr with
    | (.halt c, tr') => (some c, tr')
    | (.done none ftok, tr') =>
      runSirens net rest (ftok.getD "None") (tr'.pause)
    | (.done (some actes) ftok, tr') =>
      match runActes net s (filter_actes actes) (ftok.getD "None") tr' with
      | (some c, _, tr'') => (some c, tr'')
      | (none, token', tr'') => runSirens net rest token' (tr''.pause)

/-! ## `main_pdf_2.py` — rate limiter

`RateLimiter.wait` is modelled with rational time: the caller supplies the
current clock value `now` (`time.time()`) and the drawn jitter.  `wait`
returns the new limiter state and the instant at which the call returns
(`now + sleep_for`, where `sleep_for = max(0, next_ok - now)`). -/

/-- State of `RateLimiter`: the fixed minimum interval and the recorded
last-call timestamp. -/
structure RateLimiter where
  min_interval : ℚ
  last_ts : ℚ
deriving DecidableEq

/-- `RateLimiter(rpm)`: `min_interval = 60.0 / rpm`, `last_ts = 0.0`. -/
def RateLimiter.init (rpm : ℚ) : RateLimiter :=
  ⟨60 / rpm, 0⟩

/-- One call to `wait()` at clock value `now` with drawn jitter `jitter`:
returns the updated limiter and the clock value at which `wait()` returns.
Mirrors the source: `next_ok = last_ts + min_interval + jitter`;
`sleep_for = max(0.0, next_ok - now)`; sleep; `last_ts = max(now, next_ok)`. -/
def RateLimiter.wait (st : RateLimiter) (now jitter : ℚ) : RateLimiter × ℚ :=
  let next_ok := st.last_ts + st.min_interval + jitter
  let sleep_for := max 0 (next_ok - now)
  (⟨st.min_interval, max now next_ok⟩, now + sleep_for)

end MainPdf2

namespace MainPdfJson

/-! ## `main_pdf_json.py` — JSON output variant -/

/-- `choose_acte_label(acte)`: the first raw label whose normalized form
contains an allowed fragment; otherwise the first raw label; otherwise
"inconnu". -/
def choose_acte_label (acte : MainPdf2.Acte) : String :=
  let labels_raw := acte.typeRdd
  let pairs := labels_raw.zip (labels_raw.map MainPdf2.normalize)
  match pairs.find? (fun p =>
      MainPdf2.allowed_types.any (fun allowed => strContains p.2 allowed)) with
  | some p => p.1
  | none => labels_raw.headD "inconnu"

/-- The dictionary literal appended to `output` in `main` (lines 223–228).
Its fields are exactly the keys the code writes: `siren`, `typeActe`,
`id`, `mime` — the computed base64 payload `b64` is not stored. -/
structure JEntry where
  siren : String
  typeActe : String
  id : String
  mime : String
deriving DecidableEq

/-- The SIREN constant of `main_pdf_json.py`. -/
def siren : String := "834816985"

/-- The output-building loop of `main` (lines 216–228): for each filtered
acte, attempt the download (`dl` is the oracle for
`download_acte_base64`, returning the base64 payload string or `None`);
skip the acte when the result is `None` or empty (`if not b64`), otherwise
append the entry. -/
def buildOutput (dl : MainPdf2.Acte → Option String) :
    List MainPdf2.Acte → List JEntry
  | [] => []
  | acte :: rest =>
    match dl acte with
    | none => buildOutput dl rest
    | some b64 =>
      if b64 = "" then buildOutput dl rest
      else
        { siren := siren
          typeActe := choose_acte_label acte
          id := acte.id
          mime := "application/pdf" } :: buildOutput dl rest

end MainPdfJson

namespace Qard

/-! ## `qard_bulk_download.py` — pagination and file picking -/

/-- One page response as seen by `iter_pages` after `get_json`: a non-200
status (yielded once as-is), a bare JSON list, or a JSON object, which
either exposes an items array under a recognized key (`result` for the
call sites in this script) or does not.  `current_page`/`last_page` are
`none` when the key is absent. -/
inductive PageResp (ι : Type) where
  | fail (code : Nat)
  | bare (xs : List ι)
  | env (items : Option (List ι)) (current_page last_page : Option Int)
deriving DecidableEq

/-- One value yielded by `iter_pages`: an individual item (with code 200),
the raw envelope fallback when no items field is recognized, or the
non-200 yield. -/
inductive Yielded (ι : Type) where
  | item (x : ι)
  | fallbackEnv (e : PageResp ι)
  | httpErr (code : Nat)
deriving DecidableEq

/-- `iter_pages`: starting from `page`, fetch pages from the oracle and
yield values; returns the yielded sequence and the number of page
requests issued.  Fuel bounds the recursion (the Python generator loops
while `current_page < last_page`); every claim below is insensitive to
fuel beyond the pages actually visited.  Mirrors the source: non-200 →
yield `(code, data)` and return; bare list → yield elements and return;
recognized items array → yield items, then stop if
`current_page >= last_page` (both defaulted as in the code:
`cur = data.get("current_page", page)`, `last = data.get("last_page", cur)`),
else continue with `page + 1`; unrecognized shape → yield the raw
envelope once and return. -/
def iterPages (oracle : Int → PageResp ι) : Nat → Int → List (Yielded ι) × Nat
  | 0, _ => ([], 0)
  | fuel + 1, page =>
    match oracle page with
    | .fail code => ([.httpErr code], 1)
    | .bare xs => (xs.map .item, 1)
    | .env none cp lp => ([.fallbackEnv (.env none cp lp)], 1)
    | .env (some xs) cp lp =>
      let cur := cp.getD page
      let last := lp.getD cur
      if cur ≥ last then (xs.map .item, 1)
      else
        let sub := iterPages oracle fuel (page + 1)
        (xs.map .item ++ sub.1, sub.2 + 1)

/-- A file record as inspected by `pick_files`: each field is `none` when
the key is absent (Python `dict.get` returning `None`). -/
structure QFile where
  datatype : Option String
  data_type : Option String
  id : Option String
  file_id : Option String
  uuid : Option String
deriving DecidableEq

/-- `ALLOWED_DATATYPES` of `qard_bulk_download.py`. -/
def ALLOWED_DATATYPES : List String :=
  ["ACT", "ARTICLES_OF_ASSOCIATION", "LEGAL_NOTICE", "AVIS_SIREN"]

/-- Python truthiness chain `a or b or ""` over optional strings: the
first value that is present and non-empty, else `""`. -/
def firstTruthy : List (Option String) → String
  | [] => ""
  | some s :: rest => if s = "" then firstTruthy rest else s
  | none :: rest => firstTruthy rest

/-- Python `dtype or "UNKNOWN"` (the chosen pair's label). -/
def orUnknown (dtype : String) : String :=
  if dtype = "" then "UNKNOWN" else dtype

/-- The loop body of `pick_files`, carrying the accumulated `chosen`
list.  Mirrors the source: compute
`dtype = (f.get("datatype") or f.get("data_type") or "").upper()`;
skip when the allow-list is non-empty, `dtype` is truthy and not in the
allow-list; compute `fid = f.get("id") or f.get("file_id") or f.get("uuid")`
and skip when falsy; append `(fid, dtype or "UNKNOWN")`; break immediately
when not `download_all` (the list is now non-empty), or when
`download_all` and `len(chosen) >= max_files_per_user`. -/
def pickLoop (download_all : Bool) (maxFiles : Nat) :
    List QFile → List (String × String) → List (String × String)
  | [], chosen => chosen
  | f :: rest, chosen =>
    let dtype := strUpper (firstTruthy [f.datatype, f.data_type])
    if !ALLOWED_DATATYPES.isEmpty && dtype ≠ "" && !ALLOWED_DATATYPES.contains dtype then
      pickLoop download_all maxFiles rest chosen
    else
      let fid := firstTruthy [f.id, f.file_id, f.uuid]
      if fid = "" then pickLoop download_all maxFiles rest chosen
      else
        let chosen' := chosen ++ [(fid, orUnknown dtype)]
        if !download_all && !chosen'.isEmpty then chosen'
        else if download_all && maxFiles ≤ chosen'.length then chosen'
        else pickLoop download_all maxFiles rest chosen'

/-- `pick_files(files, download_all, max_files_per_user)`. -/
def pick_files (files : List QFile) (download_all : Bool) (maxFiles : Nat) :
    List (String × String) :=
  pickLoop download_all maxFiles files []

end Qard

/-! ## Theorems

Helper lemmas first, then one theorem per claim (with witnesses and
counterexamples where required). -/

namespace MainPdf2

/-- Unfolding lemma: a 429 response halts `fetchLoop` at once with
`SystemExit(2)`, consuming exactly the one call that received it. -/
theorem fetchLoop_quota (net : Net α) (a : Nat) (rest : List Nat) (tok : Token)
    (tr : Trace) (b : α) (h : net.resp tr.calls = .http 429 b) :
    fetchLoop net (a :: rest) tok tr = (.halt 2, tr.call) := by
  simp [fetchLoop, h]

/-- Unfolding lemma: a 429 response halts `dlLoop` at once with
`SystemExit(2)`, consuming exactly the one call that received it. -/
theorem dlLoop_quota (net : Net α) (s i : String) (a : Nat) (rest : List Nat)
    (tok : Token) (tr : Trace) (b : α) (h : net.resp tr.calls = .http 429 b) :
    dlLoop net s i (a :: rest) tok tr = (.halt 2, tr.call) := by
  simp [dlLoop, h]

/-- Every halting exit of `fetchLoop` carries exit code 2. -/
theorem fetchLoop_halt_code (net : Net α) :
    ∀ (attempts : List Nat) (tok : Token) (tr : Trace) (c : Nat) (tr' : Trace),
      fetchLoop net attempts tok tr = (.halt c, tr') → c = 2 := by
  intro attempts
  induction attempts with
  | nil =>
    intro tok tr c tr' h
    simp [fetchLoop] at h
  | cons a rest ih =>
    intro tok tr c tr' h
    rw [fetchLoop] at h
    rcases hr : net.resp tr.calls with code | _ | _ <;> rw [hr] at h <;>
      simp only [] at h
    · split_ifs at h
      · rcases hl : net.login tr.call.logins with _ | t <;> rw [hl] at h
        · simp at h
        · exact ih _ _ _ _ h
      · simp at h; omega
      · simp at h
      · simp at h
      · exact ih _ _ _ _ h
      · simp at h
    · split_ifs at h
      · simp at h
      · exact ih _ _ _ _ h
    · split_ifs at h
      · simp at h
      · exact ih _ _ _ _ h

/-- Every halting exit of `dlLoop` carries exit code 2. -/
theorem dlLoop_halt_code (net : Net α) (s i : String) :
    ∀ (attempts : List Nat) (tok : Token) (tr : Trace) (c : Nat) (tr' : Trace),
      dlLoop net s i attempts tok tr = (.halt c, tr') → c = 2 := by
  intro attempts
  induction attempts with
  | nil =>
    intro tok tr c tr' h
    simp [dlLoop] at h
  | cons a rest ih =>
    intro tok tr c tr' h
    rw [dlLoop] at h
    rcases hr : net.resp tr.calls with code | _ | _ <;> rw [hr] at h <;>
      simp only [] at h
    · split_ifs at h
      · rcases hl : net.login tr.call.logins with _ | t <;> rw [hl] at h
        · simp at h
        · exact ih _ _ _ _ h
      · simp at h; omega
      · simp at h
      · simp at h
      · exact ih _ _ _ _ h
      · simp at h
    · split_ifs at h
      · simp at h
      · exact ih _ _ _ _ h
    · split_ifs at h
      · simp at h
      · exact ih _ _ _ _ h

/-- Every halting exit of `runActes` carries exit code 2. -/
theorem runActes_halt_code (net : Net α) (s : String) :
    ∀ (actes : List Acte) (tok : Token) (tr : Trace) (c : Nat) (t' : Token)
      (tr' : Trace),
      runActes net s actes tok tr = (some c, t', tr') → c = 2 := by
  intro actes
  induction actes with
  | nil =>
    intro tok tr c t' tr' h
    simp [runActes] at h
  | cons acte rest ih =>
    intro tok tr c t' tr' h
    rw [runActes] at h
    rcases hd : download_acte net s acte tok tr with ⟨res, trD⟩
    rw [hd] at h
    rcases res with cd | t
    · simp at h
      obtain ⟨h1, -⟩ := h
      subst h1
      exact dlLoop_halt_code net s acte.id _ _ _ _ _ hd
    · exact ih _ _ _ _ _ h

/-- Every halting exit of `runSirens` carries exit code 2 (the propagated
`SystemExit(2)`), hence a non-zero process exit status. -/
theorem runSirens_halt_code (net : Net (List Acte)) :
    ∀ (sirens : List String) (tok : Token) (tr : Trace) (c : Nat) (tr' : Trace),
      runSirens net sirens tok tr = (some c, tr') → c = 2 := by
  intro sirens
  induction sirens with
  | nil =>
    intro tok tr c tr' h
    simp [runSirens] at h
  | cons s rest ih =>
    intro tok tr c tr' h
    rw [runSirens] at h
    rcases hf : fetch_attachments net tok tr with ⟨res, trF⟩
    rw [hf] at h
    rcases res with cf | ⟨json, ftok⟩
    · simp at h
      obtain ⟨h1, -⟩ := h
      subst h1
      exact fetchLoop_halt_code net _ _ _ _ _ hf
    · rcases json with _ | actes
      · simp only [] at h
        exact ih _ _ _ _ h
      · simp only [] at h
        rcases ha : runActes net s (filter_actes actes) (ftok.getD "None") trF
          with ⟨hc, t', trA⟩
        rw [ha] at h
        rcases hc with _ | c'
        · exact ih _ _ _ _ h
        · simp at h
          obtain ⟨h1, -⟩ := h
          subst h1
          exact runActes_halt_code net s _ _ _ _ _ _ ha

end MainPdf2

namespace MainPdf2

/-- The attempt ceiling bounds effects: `fetchLoop` issues at most one
network call, one login, and one backoff sleep per remaining attempt. -/
theorem fetchLoop_bounds (net : Net α) :
    ∀ (attempts : List Nat) (tok : Token) (tr : Trace),
      (fetchLoop net attempts tok tr).2.calls ≤ tr.calls + attempts.length ∧
      (fetchLoop net attempts tok tr).2.logins ≤ tr.logins + attempts.length := by
  intro attempts
  induction attempts with
  | nil =>
    intro tok tr
    simp [fetchLoop]
  | cons a rest ih =>
    intro tok tr
    rw [fetchLoop]
    rcases hr : net.resp tr.calls with code | _ | _ <;> simp only []
    · split_ifs
      · rcases hl : net.login tr.call.logins with _ | t
        · simp [Trace.call, Trace.auth]
        · have := ih t tr.call.auth
          simp [Trace.call, Trace.auth] at this ⊢
          omega
      · simp [Trace.call]
      · simp [Trace.call]
      · simp [Trace.call]
      · have := ih tok (tr.call.sleep (backoffs.getD (min (a - 1) (backoffs.length - 1)) 0))
        simp [Trace.call, Trace.sleep] at this ⊢
        omega
      · simp [Trace.call]
    · split_ifs
      · simp [Trace.call]
      · have := ih tok (tr.call.sleep (backoffs.getD (min (a - 1) (backoffs.length - 1)) 0))
        simp [Trace.call, Trace.sleep] at this ⊢
        omega
    · split_ifs
      · simp [Trace.call]
      · have := ih tok (tr.call.sleep (backoffs.getD (min (a - 1) (backoffs.length - 1)) 0))
        simp [Trace.call, Trace.sleep] at this ⊢
        omega

/-- The attempt ceiling bounds effects: `dlLoop` issues at most one
network call and one backoff sleep per remaining attempt. -/
theorem dlLoop_bounds (net : Net α) (s i : String) :
    ∀ (attempts : List Nat) (tok : Token) (tr : Trace),
      (dlLoop net s i attempts tok tr).2.calls ≤ tr.calls + attempts.length := by
  intro attempts
  induction attempts with
  | nil =>
    intro tok tr
    simp [dlLoop]
  | cons a rest ih =>
    intro tok tr
    rw [dlLoop]
    rcases hr : net.resp tr.calls with code | _ | _ <;> simp only []
    · split_ifs
      · rcases hl : net.login tr.call.logins with _ | t
        · simp [Trace.call, Trace.auth]
        · have := ih t tr.call.auth
          simp [Trace.call, Trace.auth] at this ⊢
          omega
      · simp [Trace.call]
      · simp [Trace.call]
      · simp [Trace.call]
      · have := ih tok (tr.call.sleep (dlBackoffs.getD (min (a - 1) (dlBackoffs.length - 1)) 0))
        simp [Trace.call, Trace.sleep] at this ⊢
        omega
      · simp [Trace.call, Trace.save, Trace.pause]
    · split_ifs
      · simp [Trace.call]
      · have := ih tok (tr.call.sleep (dlBackoffs.getD (min (a - 1) (dlBackoffs.length - 1)) 0))
        simp [Trace.call, Trace.sleep] at this ⊢
        omega
    · split_ifs
      · simp [Trace.call]
      · have := ih tok (tr.call.sleep (dlBackoffs.getD (min (a - 1) (dlBackoffs.length - 1)) 0))
        simp [Trace.call, Trace.sleep] at this ⊢
        omega

/-- A 5xx response with attempts remaining makes `dlLoop` sleep the
scheduled backoff and retry. -/
theorem dlLoop_5xx_retry (net : Net α) (s i : String) (a r : Nat)
    (rest : List Nat) (tok : Token) (tr : Trace) (code : Nat) (b : α)
    (h : net.resp tr.calls = .http code b) (h5 : 500 ≤ code) :
    dlLoop net s i (a :: r :: rest) tok tr =
      dlLoop net s i (r :: rest) tok
        (tr.call.sleep (dlBackoffs.getD (min (a - 1) (dlBackoffs.length - 1)) 0)) := by
  have h1 : (code == 401) = false := by simp; omega
  have h2 : (code == 429) = false := by simp; omega
  have h3 : (code == 403) = false := by simp; omega
  have h4 : (500 ≤ code || 400 ≤ code) = true := by simp; omega
  simp [dlLoop, h, h1, h2, h3, h4]

/-- A connection failure with attempts remaining makes `dlLoop` sleep the
scheduled backoff and retry. -/
theorem dlLoop_connErr_retry (net : Net α) (s i : String) (a r : Nat)
    (rest : List Nat) (tok : Token) (tr : Trace)
    (h : net.resp tr.calls = .connErr) :
    dlLoop net s i (a :: r :: rest) tok tr =
      dlLoop net s i (r :: rest) tok
        (tr.call.sleep (dlBackoffs.getD (min (a - 1) (dlBackoffs.length - 1)) 0)) := by
  simp [dlLoop, h]

/-- A 5xx response with attempts remaining makes `fetchLoop` sleep the
scheduled backoff and retry. -/
theorem fetchLoop_5xx_retry (net : Net α) (a r : Nat)
    (rest : List Nat) (tok : Token) (tr : Trace) (code : Nat) (b : α)
    (h : net.resp tr.calls = .http code b) (h5 : 500 ≤ code) :
    fetchLoop net (a :: r :: rest) tok tr =
      fetchLoop net (r :: rest) tok
        (tr.call.sleep (backoffs.getD (min (a - 1) (backoffs.length - 1)) 0)) := by
  have h1 : (code == 401) = false := by simp; omega
  have h2 : (code == 429) = false := by simp; omega
  have h3 : (code == 403) = false := by simp; omega
  have h4 : (500 ≤ code || 400 ≤ code) = true := by simp; omega
  simp [fetchLoop, h, h1, h2, h3, h4]

end MainPdf2

namespace MainPdf2

/-- C1: a quota-exceeded (429) response on any call — a metadata fetch in
`fetch_attachments` or a binary download in `download_acte` — raises
`SystemExit(2)` at once (one network call consumed, no further effects),
the signal is caught nowhere on the path back through the per-acte and
per-SIREN loops of `main`, every halting exit of the run carries the
non-zero code 2, and a 429 on the next upcoming call aborts the whole
remaining batch with no further network calls. -/
theorem quota_429_halts_run (α : Type) :
    (∀ (net : Net α) (a : Nat) (rest : List Nat) (tok : Token) (tr : Trace)
       (b : α), net.resp tr.calls = .http 429 b →
       fetchLoop net (a :: rest) tok tr = (.halt 2, tr.call)) ∧
    (∀ (net : Net α) (s i : String) (a : Nat) (rest : List Nat) (tok : Token)
       (tr : Trace) (b : α), net.resp tr.calls = .http 429 b →
       dlLoop net s i (a :: rest) tok tr = (.halt 2, tr.call)) ∧
    (∀ (net : Net α) (s : String) (acte : Acte) (more : List Acte)
       (tok : Token) (tr : Trace) (c : Nat) (tr' : Trace),
       download_acte net s acte tok tr = (.halt c, tr') →
       runActes net s (acte :: more) tok tr = (some c, tok, tr')) ∧
    (∀ (net : Net (List Acte)) (sirens : List String) (tok : Token)
       (tr : Trace) (c : Nat) (tr' : Trace),
       runSirens net sirens tok tr = (some c, tr') → c = 2 ∧ c ≠ 0) ∧
    (∀ (net : Net (List Acte)) (s : String) (rest : List String) (tok : Token)
       (tr : Trace) (b : List Acte), net.resp tr.calls = .http 429 b →
       runSirens net (s :: rest) tok tr = (some 2, tr.call)) ∧
    runSirens
        ⟨fun n => if n = 0 then .http 200 [⟨"D1", "doc", false, none, ["Attestation bancaire"]⟩]
                  else .http 429 [],
         fun _ => some "tk"⟩
        ["111222333", "444555666"] "t0" ⟨0, 0, [], [], 0⟩
      = (some 2, ⟨2, 0, [], [], 0⟩) := by
  refine ⟨fun net a rest tok tr b h => fetchLoop_quota net a rest tok tr b h,
          fun net s i a rest tok tr b h => dlLoop_quota net s i a rest tok tr b h,
          ?_, ?_, ?_, ?_⟩
  · intro net s acte more tok tr c tr' h
    rw [runActes, h]
  · intro net sirens tok tr c tr' h
    have h2 := runSirens_halt_code net sirens tok tr c tr' h
    omega
  · intro net s rest tok tr b h
    have hq : fetch_attachments net tok tr = (.halt 2, tr.call) :=
      fetchLoop_quota net 1 [2, 3, 4] tok tr b h
    rw [runSirens, hq]
  · decide

/-- C1 witness: with an oracle answering 429 to every call, the two-SIREN
batch halts with exit code 2 after the single call that received the 429. -/
theorem quota_429_halts_run_witness :
    runSirens ⟨fun _ => .http 429 [], fun _ => none⟩ ["111222333", "444555666"]
        "t0" ⟨0, 0, [], [], 0⟩ = (some 2, ⟨1, 0, [], [], 0⟩) :=
  (quota_429_halts_run (List Acte)).2.2.2.2.1 ⟨fun _ => .http 429 [], fun _ => none⟩
    "111222333" ["444555666"] "t0" ⟨0, 0, [], [], 0⟩ [] rfl

/-- C3: transient failures are retried with the configured increasing
backoff up to the 4-attempt ceiling, and exhaustion fails only the item.
Concretely: a download receiving three consecutive 503s then a 200
performs exactly the 3 scheduled backoff sleeps (8s, 20s, 45s base) and
exactly 1 file save; a metadata fetch receiving 500s sleeps the 3s/8s/20s
schedule; a download receiving only 5xx gives up after 4 calls with no
save and no run-terminating signal; a 5xx or connection failure with
attempts remaining retries after the scheduled sleep; and the number of
calls never exceeds the remaining-attempt ceiling. -/
theorem transient_retry_backoff :
    (dlLoop (⟨fun n => if n < 3 then .http 503 () else .http 200 (), fun _ => none⟩ : Net Unit)
        "111222333" "D1" (List.range' 1 4) "t" ⟨0, 0, [], [], 0⟩
      = (.done "t", ⟨4, 0, [8, 20, 45], ["111222333_D1.pdf"], 1⟩)) ∧
    (fetchLoop (⟨fun n => if n < 3 then .http 500 [] else .http 200 [], fun _ => none⟩ : Net (List Acte))
        (List.range' 1 4) "t" ⟨0, 0, [], [], 0⟩
      = (.done (some []) (some "t"), ⟨4, 0, [3, 8, 20], [], 0⟩)) ∧
    (dlLoop (⟨fun _ => .http 502 (), fun _ => none⟩ : Net Unit)
        "s" "D1" (List.range' 1 4) "t" ⟨0, 0, [], [], 0⟩
      = (.done "t", ⟨4, 0, [8, 20, 45], [], 0⟩)) ∧
    (∀ (α : Type) (net : Net α) (s i : String) (a r : Nat) (rest : List Nat)
       (tok : Token) (tr : Trace) (code : Nat) (b : α),
       net.resp tr.calls = .http code b → 500 ≤ code →
       dlLoop net s i (a :: r :: rest) tok tr =
         dlLoop net s i (r :: rest) tok
           (tr.call.sleep (dlBackoffs.getD (min (a - 1) (dlBackoffs.length - 1)) 0))) ∧
    (∀ (α : Type) (net : Net α) (s i : String) (a r : Nat) (rest : List Nat)
       (tok : Token) (tr : Trace),
       net.resp tr.calls = .connErr →
       dlLoop net s i (a :: r :: rest) tok tr =
         dlLoop net s i (r :: rest) tok
           (tr.call.sleep (dlBackoffs.getD (min (a - 1) (dlBackoffs.length - 1)) 0))) ∧
    (∀ (α : Type) (net : Net α) (tok : Token) (tr : Trace),
       (fetchLoop net (List.range' 1 4) tok tr).2.calls ≤ tr.calls + 4 ∧
       (dlLoop net "s" "i" (List.range' 1 4) tok tr).2.calls ≤ tr.calls + 4) ∧
    backoffs = [3, 8, 20] ∧ dlBackoffs = [8, 20, 45] := by
  refine ⟨by decide, by decide, by decide, ?_, ?_, ?_, rfl, rfl⟩
  · intro α net s i a r rest tok tr code b h h5
    exact dlLoop_5xx_retry net s i a r rest tok tr code b h h5
  · intro α net s i a r rest tok tr h
    exact dlLoop_connErr_retry net s i a r rest tok tr h
  · intro α net tok tr
    exact ⟨(fetchLoop_bounds net (List.range' 1 4) tok tr).1,
           dlLoop_bounds net "s" "i" (List.range' 1 4) tok tr⟩

/-- C3 witness: the 5xx retry-step conjunct applied at a concrete state:
the first download attempt against an all-503 oracle sleeps the first
scheduled backoff (8s base) and retries. -/
theorem transient_retry_backoff_witness :
    dlLoop (⟨fun _ => .http 503 (), fun _ => none⟩ : Net Unit) "s" "i"
        [1, 2, 3, 4] "t" ⟨0, 0, [], [], 0⟩ =
      dlLoop (⟨fun _ => .http 503 (), fun _ => none⟩ : Net Unit) "s" "i"
        [2, 3, 4] "t" ⟨1, 0, [8], [], 0⟩ :=
  transient_retry_backoff.2.2.2.1 Unit ⟨fun _ => .http 503 (), fun _ => none⟩
    "s" "i" 1 2 [3, 4] "t" ⟨0, 0, [], [], 0⟩ 503 () rfl (by decide)

end MainPdf2

namespace MainPdf2

/-- C2 counterexample: the claim predicts exactly one fresh login after a
401 and call failure on a second consecutive 401 with no further re-login.
Against an oracle answering 401 to every call (with every login
succeeding), `fetch_attachments` instead performs 4 network calls and 4
logins — after the second consecutive 401 it logs in again and issues a
third and a fourth call — before failing with `(None, token)`. -/
theorem relogin_once_counterexample :
    (fetch_attachments (⟨fun _ => .http 401 [], fun n => some (toString n)⟩ : Net (List Acte))
        "t0" ⟨0, 0, [], [], 0⟩
      = (.done none (some "3"), ⟨4, 4, [], [], 0⟩)) ∧
    (4 : Nat) ≠ 1 := by
  constructor
  · decide
  · omega

/-- C2 (amended): every 401 response discards the stored credential,
performs one fresh login and retries the call with the new credential;
this repeats for each consecutive 401, bounded by the 4-attempt ceiling
(so up to 4 logins, never unbounded looping), after which the call fails
with `(None, token)`; and a failed login fails the call terminally with
`(None, None)` — one call, one login attempt, nothing further. -/
theorem relogin_on_401_bounded (α : Type) :
    (∀ (net : Net α) (a : Nat) (rest : List Nat) (tok : Token) (tr : Trace)
       (b : α) (t : Token),
       net.resp tr.calls = .http 401 b → net.login tr.logins = some t →
       fetchLoop net (a :: rest) tok tr = fetchLoop net rest t tr.call.auth) ∧
    (∀ (net : Net α) (a : Nat) (rest : List Nat) (tok : Token) (tr : Trace)
       (b : α),
       net.resp tr.calls = .http 401 b → net.login tr.logins = none →
       fetchLoop net (a :: rest) tok tr = (.done none none, tr.call.auth)) ∧
    (∀ (net : Net α) (attempts : List Nat) (tok : Token) (tr : Trace),
       (fetchLoop net attempts tok tr).2.logins ≤ tr.logins + attempts.length) ∧
    (fetch_attachments (⟨fun _ => .http 401 [], fun n => some (toString n)⟩ : Net (List Acte))
        "t0" ⟨0, 0, [], [], 0⟩
      = (.done none (some "3"), ⟨4, 4, [], [], 0⟩)) ∧
    (fetch_attachments (⟨fun _ => .http 401 [], fun _ => none⟩ : Net (List Acte))
        "t0" ⟨0, 0, [], [], 0⟩
      = (.done none none, ⟨1, 1, [], [], 0⟩)) := by
  refine ⟨?_, ?_, ?_, by decide, by decide⟩
  · intro net a rest tok tr b t h hl
    simp only [fetchLoop, h]
    have : tr.call.logins = tr.logins := rfl
    rw [this, hl]
    simp
  · intro net a rest tok tr b h hl
    simp only [fetchLoop, h]
    have : tr.call.logins = tr.logins := rfl
    rw [this, hl]
    simp
  · intro net attempts tok tr
    exact (fetchLoop_bounds net attempts tok tr).2

/-- C2 witness: the login-failure conjunct applied concretely — a 401
whose re-login fails ends the call at once with `(None, None)`. -/
theorem relogin_on_401_bounded_witness :
    fetchLoop (⟨fun _ => .http 401 [], fun _ => none⟩ : Net (List Acte))
        [1, 2, 3, 4] "t0" ⟨0, 0, [], [], 0⟩ = (.done none none, ⟨1, 1, [], [], 0⟩) :=
  (relogin_on_401_bounded (List Acte)).2.1 ⟨fun _ => .http 401 [], fun _ => none⟩
    1 [2, 3, 4] "t0" ⟨0, 0, [], [], 0⟩ [] rfl rfl

end MainPdf2

namespace Qard

/-- C4: `iter_pages` yields all elements of a bare-list page and stops
after that single request; yields the items of a recognized envelope and
stops as soon as `current_page >= last_page` (with the code's defaults for
missing counters); yields an unrecognized envelope once as a fallback and
stops; and over a 3-page enveloped endpoint holding items 1–5 (page size
2) it yields exactly the 5 items in order with exactly 3 page requests —
no request for a 4th page, whose would-be content 99 is never yielded. -/
theorem iter_pages_pagination (ι : Type) :
    (∀ (oracle : Int → PageResp ι) (fuel : Nat) (page : Int) (xs : List ι),
       oracle page = .bare xs →
       iterPages oracle (fuel + 1) page = (xs.map .item, 1)) ∧
    (∀ (oracle : Int → PageResp ι) (fuel : Nat) (page : Int) (xs : List ι)
       (cp lp : Option Int),
       oracle page = .env (some xs) cp lp →
       lp.getD (cp.getD page) ≤ cp.getD page →
       iterPages oracle (fuel + 1) page = (xs.map .item, 1)) ∧
    (∀ (oracle : Int → PageResp ι) (fuel : Nat) (page : Int) (xs : List ι)
       (cp lp : Option Int),
       oracle page = .env (some xs) cp lp →
       cp.getD page < lp.getD (cp.getD page) →
       iterPages oracle (fuel + 1) page =
         ((xs.map .item) ++ (iterPages oracle fuel (page + 1)).1,
          (iterPages oracle fuel (page + 1)).2 + 1)) ∧
    (∀ (oracle : Int → PageResp ι) (fuel : Nat) (page : Int) (cp lp : Option Int),
       oracle page = .env none cp lp →
       iterPages oracle (fuel + 1) page = ([.fallbackEnv (.env none cp lp)], 1)) ∧
    (iterPages (fun p => if p = 1 then .env (some [1, 2]) (some 1) (some 3)
        else if p = 2 then .env (some [3, 4]) (some 2) (some 3)
        else if p = 3 then .env (some [5]) (some 3) (some 3)
        else .bare [99]) 10 1
      = ([.item 1, .item 2, .item 3, .item 4, .item 5], 3)) := by
  refine ⟨?_, ?_, ?_, ?_, by decide⟩
  · intro oracle fuel page xs h
    simp [iterPages, h]
  · intro oracle fuel page xs cp lp h hle
    simp [iterPages, h]
    omega
  · intro oracle fuel page xs cp lp h hlt
    have hc : ¬ (lp.getD (cp.getD page) ≤ cp.getD page) := by omega
    simp [iterPages, h, hc]
  · intro oracle fuel page cp lp h
    simp [iterPages, h]

/-- C4 witness: the bare-list conjunct applied concretely — a single
bare-list page yields its two elements and stops after one request. -/
theorem iter_pages_pagination_witness :
    iterPages (fun _ => (.bare [7, 8] : PageResp Nat)) 5 1
      = ([.item 7, .item 8], 1) :=
  (iter_pages_pagination Nat).1 (fun _ => .bare [7, 8]) 4 1 [7, 8] rfl

end Qard

namespace MainPdf2

/-- C8: the rate limiter blocks until the scheduled instant
`last_ts + min_interval + jitter` (returning at that instant, or at once
when it has passed), each `wait` advances the recorded last-call timestamp
by at least `min_interval` (for non-negative jitter), `RateLimiter(60)`
has `min_interval = 1`, and any two successive returns of `wait()` on an
`rpm = 60` limiter — the second call starting no earlier than the first
return, with non-negative jitters — are separated by at least 1 second. -/
theorem rate_limiter_spacing :
    (∀ (st : RateLimiter) (now jitter : ℚ),
       (st.wait now jitter).2 = max now (st.last_ts + st.min_interval + jitter) ∧
       (st.wait now jitter).1.last_ts = (st.wait now jitter).2 ∧
       (st.wait now jitter).1.min_interval = st.min_interval) ∧
    (∀ (st : RateLimiter) (now jitter : ℚ), 0 ≤ jitter →
       st.last_ts + st.min_interval ≤ (st.wait now jitter).1.last_ts) ∧
    (RateLimiter.init 60).min_interval = 1 ∧
    (∀ (st : RateLimiter) (now1 j1 now2 j2 : ℚ),
       st.min_interval = 1 → 0 ≤ j1 → 0 ≤ j2 →
       (st.wait now1 j1).2 ≤ now2 →
       (st.wait now1 j1).2 + 1 ≤ ((st.wait now1 j1).1.wait now2 j2).2) := by
  refine ⟨?_, ?_, by norm_num [RateLimiter.init], ?_⟩
  · intro st now jitter
    refine ⟨?_, ?_, rfl⟩
    · show now + max 0 (st.last_ts + st.min_interval + jitter - now) =
        max now (st.last_ts + st.min_interval + jitter)
      rcases le_total (st.last_ts + st.min_interval + jitter) now with h | h
      · rw [max_eq_left h, max_eq_left (by linarith)]
        ring
      · rw [max_eq_right h, max_eq_right (by linarith)]
        ring
    · show max now (st.last_ts + st.min_interval + jitter) =
        now + max 0 (st.last_ts + st.min_interval + jitter - now)
      rcases le_total (st.last_ts + st.min_interval + jitter) now with h | h
      · rw [max_eq_left h, max_eq_left (by linarith)]
        ring
      · rw [max_eq_right h, max_eq_right (by linarith)]
        ring
  · intro st now jitter hj
    show st.last_ts + st.min_interval ≤ max now (st.last_ts + st.min_interval + jitter)
    have := le_max_right now (st.last_ts + st.min_interval + jitter)
    linarith
  · intro st now1 j1 now2 j2 hmin hj1 hj2 hseq
    have h1 : (st.wait now1 j1).2 = now1 + max 0 (st.last_ts + st.min_interval + j1 - now1) := rfl
    have h2 : (st.wait now1 j1).1.last_ts = max now1 (st.last_ts + st.min_interval + j1) := rfl
    have h3 : ((st.wait now1 j1).1.wait now2 j2).2 =
        now2 + max 0 ((st.wait now1 j1).1.last_ts + (st.wait now1 j1).1.min_interval + j2 - now2) := rfl
    have h4 : (st.wait now1 j1).1.min_interval = st.min_interval := rfl
    have hr1 : (st.wait now1 j1).2 = max now1 (st.last_ts + st.min_interval + j1) := by
      rw [h1]
      rcases le_total (st.last_ts + st.min_interval + j1) now1 with h | h
      · rw [max_eq_left h, max_eq_left (by linarith)]
        ring
      · rw [max_eq_right h, max_eq_right (by linarith)]
        ring
    have hb : (st.wait now1 j1).1.last_ts + st.min_interval + j2 - now2 ≤
        max 0 ((st.wait now1 j1).1.last_ts + st.min_interval + j2 - now2) :=
      le_max_right _ _
    rw [h3, h4, h2]
    rw [hr1] at hseq ⊢
    rw [h2] at hb
    have hmax : max now1 (st.last_ts + st.min_interval + j1) + st.min_interval + j2 - now2 ≤
        max 0 (max now1 (st.last_ts + st.min_interval + j1) + st.min_interval + j2 - now2) :=
      le_max_right _ _
    rw [hmin] at *
    linarith

/-- C8 witness: two successive waits on a fresh `RateLimiter(60)` with
zero jitter, the first at clock 5, the second starting at the first
return: the returns are at least 1 second apart. -/
theorem rate_limiter_spacing_witness :
    ((RateLimiter.init 60).wait 5 0).2 + 1 ≤
      (((RateLimiter.init 60).wait 5 0).1.wait (((RateLimiter.init 60).wait 5 0).2) 0).2 :=
  rate_limiter_spacing.2.2.2 (RateLimiter.init 60) 5 0 (((RateLimiter.init 60).wait 5 0).2) 0
    (by simp [RateLimiter.init]) le_rfl le_rfl le_rfl

end MainPdf2


namespace Qard

/-- With `download_all = False`, `pick_files` returns at most one pair:
the loop breaks immediately after the first append. -/
theorem pickLoop_single_bound (maxFiles : Nat) :
    ∀ (files : List QFile), (pickLoop false maxFiles files []).length ≤ 1 := by
  intro files
  induction files with
  | nil => simp [pickLoop]
  | cons f rest ih =>
    simp only [pickLoop]
    split_ifs with h1 h2 h3 h4
    · exact ih
    · exact ih
    · simp
    · simp at h4
    · simp at h3

/-- With `download_all = True`, the chosen list grows to at most
`max (chosen.length + 1) maxFiles`: the cap is checked after appending. -/
theorem pickLoop_all_bound (maxFiles : Nat) :
    ∀ (files : List QFile) (chosen : List (String × String)),
      (pickLoop true maxFiles files chosen).length ≤ max (chosen.length + 1) maxFiles := by
  intro files
  induction files with
  | nil =>
    intro chosen
    simp [pickLoop]
  | cons f rest ih =>
    intro chosen
    simp only [pickLoop]
    split_ifs with h1 h2 h3 h4
    · exact le_trans (ih chosen) (le_of_eq rfl)
    · exact le_trans (ih chosen) (le_of_eq rfl)
    · simp at h3
    · simp only [List.length_append, List.length_singleton]
      omega
    · have := ih (chosen ++ [(firstTruthy [f.id, f.file_id, f.uuid],
        orUnknown (strUpper (firstTruthy [f.datatype, f.data_type])))])
      simp only [List.length_append, List.length_singleton] at this ⊢
      simp at h4
      omega

/-- Every pair `pick_files` returns has a non-empty file id, provided
every pair already accumulated does. -/
theorem pickLoop_fid_nonempty (da : Bool) (maxFiles : Nat) :
    ∀ (files : List QFile) (chosen : List (String × String)),
      (∀ p ∈ chosen, p.1 ≠ "") →
      ∀ p ∈ pickLoop da maxFiles files chosen, p.1 ≠ "" := by
  intro files
  induction files with
  | nil =>
    intro chosen hch
    simpa [pickLoop] using hch
  | cons f rest ih =>
    intro chosen hch
    have hext : ∀ p ∈ chosen ++ [(firstTruthy [f.id, f.file_id, f.uuid],
        orUnknown (strUpper (firstTruthy [f.datatype, f.data_type])))],
        ¬ firstTruthy [f.id, f.file_id, f.uuid] = "" → p.1 ≠ "" := by
      intro p hp hfid
      rcases List.mem_append.mp hp with h | h
      · exact hch p h
      · simp at h
        subst h
        exact hfid
    simp only [pickLoop]
    split_ifs with h1 h2 h3 h4
    · exact ih chosen hch
    · exact ih chosen hch
    · intro p hp
      exact hext p hp h2
    · intro p hp
      exact hext p hp h2
    · refine ih _ ?_
      intro p hp
      exact hext p hp h2

/-- C10 counterexample: the claim says `pick_files` returns at most
`max_files_per_user` pairs when `download_all` is true; with the cap set
to 0 and one eligible file it returns 1 pair, because the cap is checked
only after the append. -/
theorem pick_files_zero_cap_counterexample :
    pick_files [⟨some "ACT", none, some "id1", none, none⟩] true 0
        = [("id1", "ACT")] ∧
    ¬ ([("id1", "ACT")].length ≤ 0) := by
  constructor
  · decide
  · simp

/-- C10 (amended): `pick_files` returns at most one pair when
`download_all` is false and at most `max 1 max_files_per_user` pairs when
it is true (the cap is checked after appending, so a cap of 0 still
yields one pair); every returned pair has a non-empty file id; a file
whose datatype is in the allow-list is eligible, one whose datatype is
present but not allowed is skipped, and a file with an absent or empty
datatype is not excluded by the allow-list check and is returned with the
label "UNKNOWN". -/
theorem pick_files_selection :
    (∀ (files : List QFile) (maxFiles : Nat),
       (pick_files files false maxFiles).length ≤ 1) ∧
    (∀ (files : List QFile) (maxFiles : Nat),
       (pick_files files true maxFiles).length ≤ max 1 maxFiles) ∧
    (∀ (files : List QFile) (da : Bool) (maxFiles : Nat),
       ∀ p ∈ pick_files files da maxFiles, p.1 ≠ "") ∧
    (pick_files [⟨some "ACT", none, some "id1", none, none⟩] false 10
       = [("id1", "ACT")]) ∧
    (pick_files [⟨some "OTHER_TYPE", none, some "id2", none, none⟩,
                 ⟨none, none, some "id3", none, none⟩] true 10
       = [("id3", "UNKNOWN")]) ∧
    (pick_files [⟨some "", none, some "id4", none, none⟩] true 10
       = [("id4", "UNKNOWN")]) := by
  refine ⟨?_, ?_, ?_, by decide, by decide, by decide⟩
  · intro files maxFiles
    exact pickLoop_single_bound maxFiles files
  · intro files maxFiles
    exact pickLoop_all_bound maxFiles files []
  · intro files da maxFiles
    exact pickLoop_fid_nonempty da maxFiles files [] (by simp)

/-- C10 witness: the non-empty-id conjunct applied to a concrete
selection. -/
theorem pick_files_selection_witness :
    ("id1", "ACT").1 ≠ "" :=
  pick_files_selection.2.2.1 [⟨some "ACT", none, some "id1", none, none⟩]
    false 10 ("id1", "ACT") (by decide)

end Qard

namespace MainPdfJson

/-- C9: evaluating the JSON-output loop of `main_pdf_json.py` at an acte
whose download succeeds with payload base64 "QkFTRTY0": the appended
entry holds the identifier, the resolved type label, the document id and
the mime type — and nothing else: the `JEntry` record mirrors the dict
literal of the code, which never stores the computed base64 string, even
though the module docstring promises a `document_base64` key.  An acte
whose download fails (or returns an empty payload) is omitted. -/
theorem json_output_missing_base64 :
    (buildOutput (fun _ => some "QkFTRTY0")
        [⟨"123", "doc", false, none, ["Statuts constitutifs"]⟩]
      = [⟨"834816985", "Statuts constitutifs", "123", "application/pdf"⟩]) ∧
    (buildOutput (fun _ => none)
        [⟨"123", "doc", false, none, ["Statuts constitutifs"]⟩] = []) ∧
    (buildOutput (fun _ => some "")
        [⟨"123", "doc", false, none, ["Statuts constitutifs"]⟩] = []) := by
  refine ⟨by decide, by decide, by decide⟩

end MainPdfJson

namespace MainPdf2

/-- The boolean confidentiality guard agrees with `confOk`. -/
theorem confOk_iff (acte : Acte) :
    (match acte.confidentiality with
     | some (JVal.jstr conf) => strLower conf == "public"
     | _ => true) = true ↔ confOk acte := by
  rcases hc : acte.confidentiality with _ | v
  · simp [confOk, hc]
  · rcases v with s | _
    · simp [confOk, hc]
    · simp [confOk, hc]

/-- The boolean type-label test agrees with its existential reading. -/
theorem acteTypeMatch_iff (acte : Acte) :
    acteTypeMatch acte = true ↔
      ∃ label ∈ acte.typeRdd, ∃ frag ∈ allowed_types,
        strContains (normalize label) frag = true := by
  simp only [acteTypeMatch, List.any_eq_true, List.mem_map]
  constructor
  · rintro ⟨t, ⟨label, hlabel, rfl⟩, frag, hfrag, hcont⟩
    exact ⟨label, hlabel, frag, hfrag, hcont⟩
  · rintro ⟨label, hlabel, frag, hfrag, hcont⟩
    exact ⟨normalize label, ⟨label, hlabel, rfl⟩, frag, hfrag, hcont⟩

/-- C5: the filter keeps a document iff (besides the deletion and
confidentiality exclusions) some type label, once normalized, contains
some allow-list fragment as a substring; the `main_pdf.py` variant keeps
iff the type-label condition alone holds; the concrete label
"ATTESTATION BANCAIRE DU 01/01/2024" is retained while
"statuts modificatifs" is excluded; and the matching is case- and
accent-insensitive. -/
theorem filter_actes_allowlist :
    (∀ (actes : List Acte) (acte : Acte),
       acte ∈ filter_actes actes ↔
         acte ∈ actes ∧ acte.deleted = false ∧ confOk acte ∧
           ∃ label ∈ acte.typeRdd, ∃ frag ∈ allowed_types,
             strContains (normalize label) frag = true) ∧
    (∀ (actes : List Acte) (acte : Acte),
       acte ∈ MainPdf.filter_actes actes ↔
         acte ∈ actes ∧
           ∃ label ∈ acte.typeRdd, ∃ frag ∈ allowed_types,
             strContains (normalize label) frag = true) ∧
    (filter_actes [⟨"1", "d", false, none, ["ATTESTATION BANCAIRE DU 01/01/2024"]⟩]
       = [⟨"1", "d", false, none, ["ATTESTATION BANCAIRE DU 01/01/2024"]⟩]) ∧
    (filter_actes [⟨"2", "d", false, none, ["statuts modificatifs"]⟩] = []) ∧
    (normalize "Attestation Bancaire" = normalize "attestation bancaire") ∧
    (filter_actes [⟨"3", "d", false, none, ["Attestation de Dépôt des Fonds"]⟩]
       = [⟨"3", "d", false, none, ["Attestation de Dépôt des Fonds"]⟩]) := by
  refine ⟨?_, ?_, by decide, by decide, by decide, by decide⟩
  · intro actes acte
    rw [filter_actes, List.mem_filter]
    simp only [Bool.and_eq_true, Bool.not_eq_true']
    rw [confOk_iff, acteTypeMatch_iff]
    tauto
  · intro actes acte
    rw [MainPdf.filter_actes, List.mem_filter]
    rw [acteTypeMatch_iff]

/-- C6 counterexample: the claim says a present string confidentiality
value different from "public" is always excluded; the code compares after
lower-casing, so the value "Public" — a string different from "public" —
is retained when the type matches. -/
theorem confidentiality_case_counterexample :
    (filter_actes [⟨"1", "d", false, some (.jstr "Public"), ["Attestation bancaire"]⟩]
      = [⟨"1", "d", false, some (.jstr "Public"), ["Attestation bancaire"]⟩]) ∧
    ("Public" : String) ≠ "public" := by
  refine ⟨by decide, by decide⟩

/-- C6 (amended): in the batch downloader's filter, a document whose
deleted flag is true is excluded regardless of type match, and one whose
confidentiality field is present as a string and is not "public" after
lower-casing is likewise excluded; a value equal to "public" up to case
(such as "Public") is not excluded. -/
theorem filter_actes_exclusions :
    (∀ (actes : List Acte) (acte : Acte),
       acte.deleted = true → acte ∉ filter_actes actes) ∧
    (∀ (actes : List Acte) (acte : Acte) (s : String),
       acte.confidentiality = some (.jstr s) → strLower s ≠ "public" →
       acte ∉ filter_actes actes) ∧
    (filter_actes [⟨"1", "d", true, none, ["Attestation bancaire"]⟩] = []) ∧
    (filter_actes [⟨"2", "d", false, some (.jstr "confidentiel"),
        ["Attestation bancaire"]⟩] = []) ∧
    (filter_actes [⟨"3", "d", false, some (.jstr "Public"), ["Attestation bancaire"]⟩]
      = [⟨"3", "d", false, some (.jstr "Public"), ["Attestation bancaire"]⟩]) := by
  refine ⟨?_, ?_, by decide, by decide, by decide⟩
  · intro actes acte hdel hmem
    rw [filter_actes, List.mem_filter] at hmem
    simp [hdel] at hmem
  · intro actes acte s hconf hpub hmem
    rw [filter_actes, List.mem_filter] at hmem
    simp [hconf] at hmem
    exact hpub hmem.2.1.2

/-- C6 witness: the deleted-exclusion conjunct applied concretely. -/
theorem filter_actes_exclusions_witness :
    (⟨"1", "d", true, none, ["Attestation bancaire"]⟩ : Acte) ∉
      filter_actes [⟨"1", "d", true, none, ["Attestation bancaire"]⟩] :=
  filter_actes_exclusions.1 [⟨"1", "d", true, none, ["Attestation bancaire"]⟩]
    ⟨"1", "d", true, none, ["Attestation bancaire"]⟩ rfl

end MainPdf2

/-! ### Character-table facts and lookup reasoning for the normalizers -/

/-- Keys absent from an association list are looked up to `none`. -/
theorem lookup_none_of_ne {β : Type} (t : List (Char × β)) (c : Char)
    (h : ∀ p ∈ t, p.1 ≠ c) : t.lookup c = none :=
  List.lookup_eq_none_iff.mpr fun p hp => by
    simpa using fun he => h p hp he.symm

/-- A successful lookup exhibits a member of the association list. -/
theorem mem_of_lookup_some {β : Type} (t : List (Char × β)) (c : Char) (b : β)
    (h : t.lookup c = some b) : (c, b) ∈ t := by
  obtain ⟨l₁, l₂, rfl, -⟩ := List.lookup_eq_some_iff.mp h
  exact List.mem_append.mpr (Or.inr (List.mem_cons_self _ _))

/-- A `none` lookup means no key matches. -/
theorem ne_of_lookup_none {β : Type} (t : List (Char × β)) (c : Char)
    (h : t.lookup c = none) : ∀ p ∈ t, p.1 ≠ c := by
  intro p hp he
  have := List.lookup_eq_none_iff.mp h p hp
  simp at this
  exact this he.symm

/-- Every key of the NFKD table is outside ASCII. -/
theorem nfkdTable_keys_nonascii : ∀ p ∈ nfkdTable, 128 ≤ p.1.toNat := by
  decide

/-- Lower-casing an ASCII key gives an ASCII character that is itself not
a key of the lower-casing table. -/
theorem lowerTable_ascii_good : ∀ p ∈ lowerTable, p.1.toNat < 128 →
    p.2.toNat < 128 ∧ ∀ q ∈ lowerTable, q.1 ≠ p.2 := by
  decide

/-- Lower-casing a key that the NFKD table leaves fixed gives a character
that is NFKD-fixed, not a combining mark, and not a lower-casing key. -/
theorem lowerTable_unfolded_good : ∀ p ∈ lowerTable,
    (∀ q ∈ nfkdTable, q.1 ≠ p.1) →
    (∀ q ∈ nfkdTable, q.1 ≠ p.2) ∧ isCombiningMark p.2 = false ∧
      ∀ q ∈ lowerTable, q.1 ≠ p.2 := by
  decide

/-- The characters the NFKD table emits are themselves NFKD-fixed. -/
theorem nfkdTable_out_fixed : ∀ p ∈ nfkdTable, ∀ d ∈ p.2,
    ∀ q ∈ nfkdTable, q.1 ≠ d := by
  decide

/-- NFKD is the identity on ASCII characters. -/
theorem nfkdChar_ascii (c : Char) (h : c.toNat < 128) : nfkdChar c = [c] := by
  rw [nfkdChar, lookup_none_of_ne]
  · rfl
  · intro p hp he
    have := nfkdTable_keys_nonascii p hp
    rw [he] at this
    omega

/-- Lower-casing an ASCII character yields an `asciiFixed` character. -/
theorem pyLower_ascii_fixed (c : Char) (h : c.toNat < 128) :
    asciiFixed (pyLower c) := by
  rcases hl : lowerTable.lookup c with _ | b
  · have hc : pyLower c = c := by rw [pyLower, hl]; rfl
    rw [hc]
    exact ⟨nfkdChar_ascii c h, h, hc⟩
  · have hm := mem_of_lookup_some lowerTable c b hl
    have hb : pyLower c = b := by rw [pyLower, hl]; rfl
    obtain ⟨hb128, hbk⟩ := lowerTable_ascii_good (c, b) hm h
    rw [hb]
    exact ⟨nfkdChar_ascii b hb128, hb128,
      by rw [pyLower, lookup_none_of_ne lowerTable b hbk]; rfl⟩

/-- Every character of a normalized string is `asciiFixed`. -/
theorem normalizeL_chars (l : List Char) :
    ∀ c ∈ MainPdf2.normalizeL l, asciiFixed c := by
  intro c hc
  rw [MainPdf2.normalizeL] at hc
  obtain ⟨d, hd, rfl⟩ := List.mem_map.mp hc
  obtain ⟨-, hd2⟩ := List.mem_filter.mp hd
  exact pyLower_ascii_fixed d (by simpa using hd2)

/-- NFKD acts as the identity on lists of NFKD-fixed characters. -/
theorem nfkdL_fixed (l : List Char) (h : ∀ c ∈ l, nfkdChar c = [c]) :
    nfkdL l = l := by
  induction l with
  | nil => rfl
  | cons c cs ih =>
    rw [nfkdL, List.flatMap_cons, h c (List.mem_cons_self c cs)]
    rw [nfkdL] at ih
    rw [ih fun d hd => h d (List.mem_cons_of_mem c hd)]
    rfl

/-- Mapping a function that fixes every member is the identity. -/
theorem map_fixed {α : Type} (f : α → α) (l : List α)
    (h : ∀ c ∈ l, f c = c) : l.map f = l := by
  induction l with
  | nil => rfl
  | cons c cs ih =>
    rw [List.map_cons, h c (List.mem_cons_self c cs),
      ih fun d hd => h d (List.mem_cons_of_mem c hd)]

/-- One pass of `normalize` is the identity on `asciiFixed` strings. -/
theorem normalizeL_fixed (l : List Char) (h : ∀ c ∈ l, asciiFixed c) :
    MainPdf2.normalizeL l = l := by
  rw [MainPdf2.normalizeL, nfkdL_fixed l fun c hc => (h c hc).1]
  rw [List.filter_eq_self.mpr fun c hc => by simpa using (h c hc).2.1]
  exact map_fixed _ _ fun c hc => (h c hc).2.2

/-- Every character of the first three `norm` stages is `cleanFixed`. -/
theorem preClean_chars (l : List Char) : ∀ c ∈ preClean l, cleanFixed c := by
  intro c hc
  rw [preClean] at hc
  obtain ⟨d, hd, rfl⟩ := List.mem_map.mp hc
  obtain ⟨hd1, hd2⟩ := List.mem_filter.mp hd
  have hcomb : isCombiningMark d = false := by simpa using hd2
  rw [nfkdL] at hd1
  obtain ⟨e, -, hde⟩ := List.mem_flatMap.mp hd1
  have hdfix : ∀ q ∈ nfkdTable, q.1 ≠ d := by
    rcases he : nfkdTable.lookup e with _ | dec
    · rw [nfkdChar, he] at hde
      simp at hde
      subst hde
      exact ne_of_lookup_none nfkdTable d he
    · rw [nfkdChar, he] at hde
      exact nfkdTable_out_fixed (e, dec) (mem_of_lookup_some _ _ _ he) d hde
  rcases hl : lowerTable.lookup d with _ | b
  · have hld : pyLower d = d := by rw [pyLower, hl]; rfl
    rw [hld]
    refine ⟨?_, hcomb, hld⟩
    rw [nfkdChar, lookup_none_of_ne nfkdTable d hdfix]
    rfl
  · have hm := mem_of_lookup_some lowerTable d b hl
    obtain ⟨hb1, hb2, hb3⟩ := lowerTable_unfolded_good (d, b) hm hdfix
    have hlb : pyLower d = b := by rw [pyLower, hl]; rfl
    rw [hlb]
    refine ⟨?_, hb2, ?_⟩
    · rw [nfkdChar, lookup_none_of_ne nfkdTable b hb1]
      rfl
    · rw [pyLower, lookup_none_of_ne lowerTable b hb3]
      rfl

/-- The first three `norm` stages act as the identity on `cleanFixed`
strings. -/
theorem preClean_fixed (l : List Char) (h : ∀ c ∈ l, cleanFixed c) :
    preClean l = l := by
  rw [preClean, nfkdL_fixed l fun c hc => (h c hc).1]
  rw [List.filter_eq_self.mpr fun c hc => by simp [(h c hc).2.1]]
  exact map_fixed _ _ fun c hc => (h c hc).2.2

/-! ### Whitespace-collapsing invariants -/

/-- Characters of the collapsed string come from the input or are the
space inserted for a run. -/
theorem collapseGo_chars : ∀ (l : List Char) (b : Bool) (c : Char),
    c ∈ collapseGo b l → c = ' ' ∨ c ∈ l := by
  intro l
  induction l with
  | nil =>
    intro b c hc
    simp [collapseGo] at hc
  | cons d cs ih =>
    intro b c hc
    rw [collapseGo] at hc
    split_ifs at hc with h1 h2
    · rcases ih true c hc with h | h
      · exact Or.inl h
      · exact Or.inr (List.mem_cons_of_mem d h)
    · rcases List.mem_cons.mp hc with rfl | hc'
      · exact Or.inl rfl
      · rcases ih true c hc' with h | h
        · exact Or.inl h
        · exact Or.inr (List.mem_cons_of_mem d h)
    · rcases List.mem_cons.mp hc with rfl | hc'
      · exact Or.inr (List.mem_cons_self c cs)
      · rcases ih false c hc' with h | h
        · exact Or.inl h
        · exact Or.inr (List.mem_cons_of_mem d h)

/-- Every whitespace character of the collapsed string is the space. -/
theorem collapseGo_ws : ∀ (l : List Char) (b : Bool) (c : Char),
    c ∈ collapseGo b l → isWs c = true → c = ' ' := by
  intro l
  induction l with
  | nil =>
    intro b c hc
    simp [collapseGo] at hc
  | cons d cs ih =>
    intro b c hc hw
    rw [collapseGo] at hc
    split_ifs at hc with h1 h2
    · exact ih true c hc hw
    · rcases List.mem_cons.mp hc with rfl | hc'
      · rfl
      · exact ih true c hc' hw
    · rcases List.mem_cons.mp hc with rfl | hc'
      · rw [hw] at h1
        exact absurd rfl h1
      · exact ih false c hc' hw

/-- Consing a character onto a no-double-whitespace list whose head is
compatible preserves the invariant. -/
theorem noDblWs_cons_of (a : Char) (r : List Char)
    (h : isWs a = false ∨ headNotWs r = true) (hr : noDblWs r = true) :
    noDblWs (a :: r) = true := by
  cases r with
  | nil => rfl
  | cons d t =>
    rw [noDblWs]
    rcases h with h | h
    · simp [h, hr]
    · rw [headNotWs] at h
      simp at h
      simp [h, hr]

/-- The no-double-whitespace invariant passes to the tail. -/
theorem noDblWs_tail (a : Char) (r : List Char)
    (h : noDblWs (a :: r) = true) : noDblWs r = true := by
  cases r with
  | nil => rfl
  | cons d t =>
    rw [noDblWs, Bool.and_eq_true] at h
    exact h.2

/-- The head pair of a no-double-whitespace list is not two whitespace
characters. -/
theorem noDblWs_head (a d : Char) (t : List Char)
    (h : noDblWs (a :: d :: t) = true) (hw : isWs a = true) :
    isWs d = false := by
  rw [noDblWs, Bool.and_eq_true] at h
  obtain ⟨h1, -⟩ := h
  simp [hw] at h1
  exact h1

/-- The collapsed string has no double whitespace, and in run-mode its
head is not whitespace. -/
theorem collapseGo_invariants : ∀ (l : List Char),
    noDblWs (collapseGo true l) = true ∧ noDblWs (collapseGo false l) = true ∧
      headNotWs (collapseGo true l) = true := by
  intro l
  induction l with
  | nil => exact ⟨rfl, rfl, rfl⟩
  | cons d cs ih =>
    obtain ⟨iht, ihf, ihh⟩ := ih
    by_cases hw : isWs d
    · have e1 : collapseGo true (d :: cs) = collapseGo true cs := by
        simp [collapseGo, hw]
      have e2 : collapseGo false (d :: cs) = ' ' :: collapseGo true cs := by
        simp [collapseGo, hw]
      refine ⟨?_, ?_, ?_⟩
      · rw [e1]
        exact iht
      · rw [e2]
        exact noDblWs_cons_of ' ' _ (Or.inr ihh) iht
      · rw [e1]
        exact ihh
    · have hwf : isWs d = false := by simpa using hw
      have e3 : ∀ b, collapseGo b (d :: cs) = d :: collapseGo false cs := by
        intro b
        simp [collapseGo, hw]
      refine ⟨?_, ?_, ?_⟩
      · rw [e3]
        exact noDblWs_cons_of d _ (Or.inl hwf) ihf
      · rw [e3]
        exact noDblWs_cons_of d _ (Or.inl hwf) ihf
      · rw [e3, headNotWs, hwf]
        rfl

/-- Collapsing is the identity on strings whose whitespace is already
single spaces. -/
theorem collapseGo_fixed : ∀ (l : List Char),
    (∀ c ∈ l, isWs c = true → c = ' ') → noDblWs l = true →
    collapseGo false l = l ∧ (headNotWs l = true → collapseGo true l = l) := by
  intro l
  induction l with
  | nil => exact fun _ _ => ⟨rfl, fun _ => rfl⟩
  | cons d cs ih =>
    intro hall hnd
    have hall' : ∀ c ∈ cs, isWs c = true → c = ' ' :=
      fun c hc => hall c (List.mem_cons_of_mem d hc)
    have hnd' : noDblWs cs = true := noDblWs_tail d cs hnd
    by_cases hw : isWs d
    · have hd : d = ' ' := hall d (List.mem_cons_self d cs) hw
      have hhead : headNotWs cs = true := by
        cases cs with
        | nil => rfl
        | cons e t =>
          rw [headNotWs, noDblWs_head d e t hnd hw]
          rfl
      constructor
      · have e2 : collapseGo false (d :: cs) = ' ' :: collapseGo true cs := by
          simp [collapseGo, hw]
        rw [e2, (ih hall' hnd').2 hhead, hd]
      · intro hh
        rw [headNotWs, hw] at hh
        simp at hh
    · have hwf : isWs d = false := by simpa using hw
      have e3 : ∀ b, collapseGo b (d :: cs) = d :: collapseGo false cs := by
        intro b
        simp [collapseGo, hw]
      have hset : collapseGo false cs = cs := (ih hall' hnd').1
      exact ⟨by rw [e3, hset], fun _ => by rw [e3, hset]⟩

/-! ### Strip invariants -/

/-- `dropTrailingWs` on a cons either empties or keeps the head and
recurses; when the recursive result is empty, a kept head is not
whitespace. -/
theorem dropTrailingWs_cons (c : Char) (cs : List Char) :
    dropTrailingWs (c :: cs) = [] ∨
      (dropTrailingWs (c :: cs) = c :: dropTrailingWs cs ∧
        (dropTrailingWs cs = [] → isWs c = false)) := by
  rw [dropTrailingWs]
  rcases h : dropTrailingWs cs with _ | ⟨d, t⟩
  · by_cases hw : isWs c
    · left
      simp [hw]
    · right
      have hwf : isWs c = false := by simpa using hw
      constructor
      · simp [hwf]
      · intro _
        exact hwf
  · right
    constructor
    · rfl
    · intro h0
      exact (List.cons_ne_nil d t h0).elim

/-- Dropping trailing whitespace gives a sublist. -/
theorem dropTrailingWs_sublist : ∀ (l : List Char),
    (dropTrailingWs l).Sublist l := by
  intro l
  induction l with
  | nil => exact List.Sublist.refl []
  | cons c cs ih =>
    rcases dropTrailingWs_cons c cs with h | ⟨h, -⟩
    · rw [h]
      exact List.nil_sublist _
    · rw [h]
      exact List.Sublist.cons₂ c ih

/-- Dropping trailing whitespace preserves the no-double-whitespace
invariant. -/
theorem noDblWs_dropTrailingWs : ∀ (l : List Char),
    noDblWs l = true → noDblWs (dropTrailingWs l) = true := by
  intro l
  induction l with
  | nil => intro h; exact h
  | cons c cs ih =>
    intro h
    rcases dropTrailingWs_cons c cs with he | ⟨he, -⟩
    · rw [he]
      rfl
    · rw [he]
      refine noDblWs_cons_of c _ ?_ (ih (noDblWs_tail c cs h))
      cases cs with
      | nil => exact Or.inr rfl
      | cons e t =>
        rcases dropTrailingWs_cons e t with he2 | ⟨he2, -⟩
        · rw [he2]
          exact Or.inr rfl
        · rw [he2]
          by_cases hwc : isWs c
          · refine Or.inr ?_
            rw [headNotWs, noDblWs_head c e t h hwc]
            rfl
          · exact Or.inl (by simpa using hwc)

/-- Dropping trailing whitespace preserves a non-whitespace head. -/
theorem headNotWs_dropTrailingWs : ∀ (l : List Char),
    headNotWs l = true → headNotWs (dropTrailingWs l) = true := by
  intro l
  cases l with
  | nil => intro h; exact h
  | cons c cs =>
    intro h
    rcases dropTrailingWs_cons c cs with he | ⟨he, -⟩
    · rw [he]
      rfl
    · rw [he]
      rw [headNotWs] at h ⊢
      exact h

/-- Closed-form one-step equation for `dropTrailingWs`. -/
theorem dropTrailingWs_cons_eq (c : Char) (cs : List Char) :
    dropTrailingWs (c :: cs) =
      if (dropTrailingWs cs).isEmpty && isWs c then []
      else c :: dropTrailingWs cs := by
  rw [dropTrailingWs]
  rcases h : dropTrailingWs cs with _ | ⟨d, t⟩
  · by_cases hw : isWs c
    · simp [hw]
    · simp [hw]
  · simp

/-- `dropTrailingWs` is idempotent. -/
theorem dropTrailingWs_idem : ∀ (l : List Char),
    dropTrailingWs (dropTrailingWs l) = dropTrailingWs l := by
  intro l
  induction l with
  | nil => rfl
  | cons c cs ih =>
    rw [dropTrailingWs_cons_eq]
    by_cases he : ((dropTrailingWs cs).isEmpty && isWs c) = true
    · rw [if_pos he]
      rfl
    · rw [if_neg he, dropTrailingWs_cons_eq, ih, if_neg he]

/-- The head after dropping a leading whitespace run is not whitespace. -/
theorem headNotWs_dropWhile : ∀ (l : List Char),
    headNotWs (l.dropWhile isWs) = true := by
  intro l
  induction l with
  | nil => rfl
  | cons c cs ih =>
    rw [List.dropWhile_cons]
    by_cases hw : isWs c
    · rw [if_pos hw]
      exact ih
    · have hwf : isWs c = false := by simpa using hw
      rw [if_neg (by simp [hwf])]
      rw [headNotWs, hwf]
      rfl

/-- Dropping a leading whitespace run preserves the
no-double-whitespace invariant. -/
theorem noDblWs_dropWhile : ∀ (l : List Char),
    noDblWs l = true → noDblWs (l.dropWhile isWs) = true := by
  intro l
  induction l with
  | nil => intro h; exact h
  | cons c cs ih =>
    intro h
    rw [List.dropWhile_cons]
    by_cases hw : isWs c
    · rw [if_pos hw]
      exact ih (noDblWs_tail c cs h)
    · rw [if_neg hw]
      exact h

/-- A list with a non-whitespace head is unchanged by dropping leading
whitespace. -/
theorem dropWhile_of_headNotWs (l : List Char) (h : headNotWs l = true) :
    l.dropWhile isWs = l := by
  cases l with
  | nil => rfl
  | cons c cs =>
    rw [headNotWs] at h
    rw [List.dropWhile_cons, if_neg (by simp at h ⊢; simp [h])]

/-- `stripWs` output: subset of the input, no double whitespace, head and
whole string stable under a second strip. -/
theorem stripWs_subset (l : List Char) : ∀ c ∈ stripWs l, c ∈ l := by
  intro c hc
  rw [stripWs] at hc
  exact (List.dropWhile_sublist isWs).subset ((dropTrailingWs_sublist _).subset hc)

/-- Stripping preserves the no-double-whitespace invariant. -/
theorem noDblWs_stripWs (l : List Char) (h : noDblWs l = true) :
    noDblWs (stripWs l) = true :=
  noDblWs_dropTrailingWs _ (noDblWs_dropWhile l h)

/-- The stripped string has a non-whitespace head. -/
theorem headNotWs_stripWs (l : List Char) : headNotWs (stripWs l) = true :=
  headNotWs_dropTrailingWs _ (headNotWs_dropWhile l)

/-- Stripping is idempotent. -/
theorem stripWs_idem (l : List Char) : stripWs (stripWs l) = stripWs l := by
  rw [show stripWs (stripWs l) =
      dropTrailingWs ((stripWs l).dropWhile isWs) from rfl]
  rw [dropWhile_of_headNotWs _ (headNotWs_stripWs l), stripWs,
    dropTrailingWs_idem]

/-! ### Idempotence of the two normalizers -/

/-- `normalizeL` is idempotent. -/
theorem normalizeL_idem (l : List Char) :
    MainPdf2.normalizeL (MainPdf2.normalizeL l) = MainPdf2.normalizeL l :=
  normalizeL_fixed _ (normalizeL_chars l)

/-- Unfolding of `normL` on a non-empty string. -/
theorem normL_nonempty (x : List Char) (hx : ¬ x.isEmpty = true) :
    PreOcr.normL x = stripWs (subWs (preClean x)) := by
  rw [PreOcr.normL, if_neg hx]

/-- `normL` is idempotent. -/
theorem normL_idem (l : List Char) :
    PreOcr.normL (PreOcr.normL l) = PreOcr.normL l := by
  by_cases hl : l.isEmpty = true
  · have h0 : PreOcr.normL l = [] := by rw [PreOcr.normL, if_pos hl]
    rw [h0]
    rfl
  · have hy : PreOcr.normL l = stripWs (subWs (preClean l)) := normL_nonempty l hl
    have hchars : ∀ c ∈ PreOcr.normL l, cleanFixed c := by
      intro c hc
      rw [hy] at hc
      have hc2 : c ∈ subWs (preClean l) := stripWs_subset _ c hc
      rcases collapseGo_chars _ false c hc2 with rfl | hcp
      · exact ⟨nfkdChar_ascii ' ' (by decide), by decide, by decide⟩
      · exact preClean_chars l c hcp
    have hws : ∀ c ∈ PreOcr.normL l, isWs c = true → c = ' ' := by
      intro c hc hwsc
      rw [hy] at hc
      exact collapseGo_ws _ false c (stripWs_subset _ c hc) hwsc
    have hnd : noDblWs (PreOcr.normL l) = true := by
      rw [hy]
      exact noDblWs_stripWs _ (collapseGo_invariants (preClean l)).2.1
    by_cases hz : (PreOcr.normL l).isEmpty = true
    · have hze : PreOcr.normL l = [] := by
        rcases h : PreOcr.normL l with _ | ⟨a, b⟩
        · rfl
        · rw [h] at hz
          simp at hz
      rw [hze]
      rfl
    · rw [normL_nonempty _ hz, preClean_fixed _ hchars, subWs,
        (collapseGo_fixed _ hws hnd).1, hy, stripWs_idem]

namespace MainPdf2

/-- C7 counterexample: the claim says `normalize` collapses whitespace;
on "a␣␣b" a collapse would give "a␣b", but `normalize` keeps the double
space unchanged — it strips diacritics and lower-cases only. -/
theorem normalize_whitespace_counterexample :
    normalize "a  b" = "a  b" ∧ normalize "a  b" ≠ "a b" := by
  refine ⟨by decide, by decide⟩

/-- C7 (amended): both normalizers are idempotent on every string and are
case- and accent-insensitive; `normalize` of the INPI scripts strips
diacritics and lower-cases but does not collapse whitespace, while `norm`
of the pre-OCR filter additionally collapses whitespace runs and strips
the ends. -/
theorem normalize_idempotent :
    (∀ s : String, normalize (normalize s) = normalize s) ∧
    (∀ s : String, PreOcr.norm (PreOcr.norm s) = PreOcr.norm s) ∧
    (normalize "Attestation Bancaire" = normalize "attestation bancaire") ∧
    (normalize "Dépôt" = normalize "depot") ∧
    (normalize "Attestation Bancaire" = "attestation bancaire") ∧
    (PreOcr.norm " Attestation   de DÉPÔT " = "attestation de depot") ∧
    (normalize "a  b" = "a  b") := by
  refine ⟨?_, ?_, by decide, by decide, by decide, by decide, by decide⟩
  · intro s
    show (⟨normalizeL (normalizeL s.data)⟩ : String) = ⟨normalizeL s.data⟩
    rw [normalizeL_idem]
  · intro s
    show (⟨PreOcr.normL (PreOcr.normL s.data)⟩ : String) = ⟨PreOcr.normL s.data⟩
    rw [normL_idem]

end MainPdf2
